import Mathlib

/-!
Verification of the configuration-complexity measurement script
(`import os.py`): it counts "code lines" (non-blank, non-comment) of
network configuration files, ranks the files by that count, compares every
file against the simplest one and against an optionally detected reference
file (name contains "mpls" but not "srv"), and writes a CSV report.

The script is embedded shallowly:

* a file's content is a `List String` of its lines; an entry of the
  configuration directory is a pair `(name, Option content)` where `none`
  models a file that cannot be opened (Python would raise `OSError`);
* Python floats are modelled as exact rationals `ℚ`; `round(x, 2)` is
  modelled by `round2` (round half to even, Python's rounding mode);
  rational values produced by the script are written with `mkRat` so that
  they reduce in the kernel, and bridge lemmas (`pct_eq_div`,
  `round2_eq`) restate them with `/` as in the source;
* Python's stable `sorted` is modelled by the stable insertion sort
  `sortLe`;
* Python string operations are modelled on `List Char`: `strip` is
  `pyStrip`, `lower` is `minusculas`, the substring test `in` is
  `pyContiene`, `startswith` is `List.isPrefixOf`;
* `main` takes the existence of the configuration directory and the
  directory listing as explicit inputs and returns a `RunResult`:
  the printed error notice for a missing directory, the notice for an
  empty file set, an uncaught exception, or the final `Report`.
-/

/-- Python `str.strip()` on the characters of a line: drop whitespace at
both ends. -/
def pyStrip (s : List Char) : List Char :=
  ((s.dropWhile Char.isWhitespace).reverse.dropWhile Char.isWhitespace).reverse

/-- Python `str.lower()`: the lower-cased characters of a string. -/
def minusculas (s : String) : List Char :=
  s.toList.map Char.toLower

/-- Python `sub in s` on strings: `sub` occurs contiguously in `s`. -/
def pyContiene (sub s : List Char) : Bool :=
  decide (sub <:+: s)

/-- Global `IGNORE_COMMENTS = True`: whether comment lines are omitted from the
count. -/
def IGNORE_COMMENTS : Bool := true

/-- Global `COMMENT_PREFIXES = ("#", "!", "//")`. -/
def COMMENT_PREFIXES : List String := ["#", "!", "//"]

/-- Global `REFERENCIA_KEYWORD = "mpls"`: keyword locating the reference file. -/
def REFERENCIA_KEYWORD : String := "mpls"

/-- Global `EXTENSIONS = (".cfg", ".conf", ".txt", "")`. -/
def EXTENSIONS : List String := [".cfg", ".conf", ".txt", ""]

/-- Function `es_linea_valida`: a line counts as a code line when its stripped form
is non-empty and, if `ignore_comments` is set, does not start with a
comment prefix.  The global `IGNORE_COMMENTS` is threaded as the explicit
argument `ignore_comments`. -/
def es_linea_valida (ignore_comments : Bool) (linea : String) : Bool :=
  let linea_limpia := pyStrip linea.toList
  if linea_limpia.isEmpty then false
  else if ignore_comments
      && COMMENT_PREFIXES.any (fun p => p.toList.isPrefixOf linea_limpia) then false
  else true

/-- Function `contar_lineas_config`: the counting loop over the lines of one file,
with the accumulator `contador` starting at 0. -/
def contar_lineas_config (ignore_comments : Bool) (lineas : List String) : Nat :=
  lineas.foldl
    (fun contador linea =>
      if es_linea_valida ignore_comments linea then contador + 1 else contador) 0

lemma foldl_count_shift (p : String → Bool) (lineas : List String) (n : Nat) :
    lineas.foldl (fun contador linea => if p linea then contador + 1 else contador) n
      = n + lineas.foldl (fun contador linea => if p linea then contador + 1 else contador) 0 := by
  induction lineas generalizing n with
  | nil => simp
  | cons l ls ih =>
    simp only [List.foldl_cons]
    rw [ih, ih (if p l then 0 + 1 else 0)]
    by_cases h : p l = true <;> simp [h] <;> omega

lemma contar_eq_length_filter (ignore_comments : Bool) (lineas : List String) :
    contar_lineas_config ignore_comments lineas
      = (lineas.filter (es_linea_valida ignore_comments)).length := by
  induction lineas with
  | nil => simp [contar_lineas_config]
  | cons l ls ih =>
    have hstep :
        contar_lineas_config ignore_comments (l :: ls)
          = (if es_linea_valida ignore_comments l then 0 + 1 else 0)
              + contar_lineas_config ignore_comments ls := by
      simp only [contar_lineas_config, List.foldl_cons]
      exact foldl_count_shift _ ls _
    rw [hstep, ih]
    by_cases h : es_linea_valida ignore_comments l = true
    · rw [List.filter_cons_of_pos h]
      simp [h]
      omega
    · rw [List.filter_cons_of_neg (by simp [h])]
      simp [h]

lemma es_linea_valida_eq (ignore_comments : Bool) (linea : String) :
    es_linea_valida ignore_comments linea
      = (!(pyStrip linea.toList).isEmpty
          && (!ignore_comments
              || !COMMENT_PREFIXES.any (fun p => p.toList.isPrefixOf (pyStrip linea.toList)))) := by
  unfold es_linea_valida
  cases h : (pyStrip linea.toList).isEmpty <;>
    cases ignore_comments <;>
      cases hq : COMMENT_PREFIXES.any (fun p => p.toList.isPrefixOf (pyStrip linea.toList)) <;>
        simp_all

/-- C1. The computed code-line count equals the number of lines that are
non-blank after stripping leading/trailing whitespace and, when the
ignore-comments flag is set (`IGNORE_COMMENTS` defaults to `true`), whose
stripped form does not start with any of the comment prefixes `#`, `!`,
`//`; the count is a natural number (hence `≥ 0`) and is at most the total
number of lines. -/
theorem contar_lineas_config_spec (ignore_comments : Bool) (lineas : List String) :
    contar_lineas_config ignore_comments lineas
        = (lineas.filter (fun linea =>
            !(pyStrip linea.toList).isEmpty
              && (!ignore_comments
                  || !COMMENT_PREFIXES.any
                        (fun p => p.toList.isPrefixOf (pyStrip linea.toList))))).length
      ∧ contar_lineas_config ignore_comments lineas ≤ lineas.length := by
  constructor
  · rw [contar_eq_length_filter]
    congr 1
    apply List.filter_congr
    intro l _
    exact es_linea_valida_eq ignore_comments l
  · rw [contar_eq_length_filter]
    exact List.length_filter_le _ _

/-- The exact value of Python's `delta / base * 100` on integer inputs
(`base` is a line count).  Written with `mkRat` so that it evaluates in
the kernel; `pct_eq_div` restates it as in the source. -/
def pct (delta : Int) (base : Nat) : ℚ := mkRat (delta * 100) base

lemma pct_eq_div (delta : Int) (base : Nat) :
    pct delta base = (delta : ℚ) / (base : ℚ) * 100 := by
  unfold pct
  rw [Rat.mkRat_eq_div]
  push_cast
  ring

/-- The integer nearest to `a / b` (`b > 0`), halves to even: the kernel
of Python's `round`. -/
def redondeoMedioPar (a b : Int) : Int :=
  if 2 * (a.emod b) < b then a.ediv b
  else if b < 2 * (a.emod b) then a.ediv b + 1
  else if (a.ediv b) % 2 = 0 then a.ediv b else a.ediv b + 1

/-- Python's `round(x, 2)`: round to two decimal places, halves to even
(Python's rounding mode), as an exact rational. -/
def round2 (q : ℚ) : ℚ :=
  mkRat (redondeoMedioPar (q.num * 100) (q.den : Int)) 100

lemma round2_zero : round2 0 = 0 := by decide


/-- One row of the analysis: the dictionary built per file in `main`.
`none` in a `diff` field is Python's `None`. -/
structure Registro where
  archivo : String
  lineas_codigo : Nat
  diff_vs_min_abs : Option Int
  diff_vs_min_pct : Option ℚ
  diff_vs_ref_abs : Option Int
  diff_vs_ref_pct : Option ℚ
deriving DecidableEq

/-- Stable insertion of `x` into a list: `x` goes in front of the first
element `y` with `le x y`. -/
def insertLe (le : α → α → Bool) (x : α) : List α → List α
  | [] => [x]
  | y :: ys => if le x y then x :: y :: ys else y :: insertLe le x ys

/-- Stable insertion sort, the model of Python's stable `sorted`. -/
def sortLe (le : α → α → Bool) : List α → List α
  | [] => []
  | x :: xs => insertLe le x (sortLe le xs)

lemma insertLe_perm (le : α → α → Bool) (x : α) (l : List α) :
    (insertLe le x l).Perm (x :: l) := by
  induction l with
  | nil => exact List.Perm.refl _
  | cons y ys ih =>
    by_cases h : le x y = true
    · simp [insertLe, h]
    · simp only [insertLe, if_neg h]
      exact (ih.cons y).trans (List.Perm.swap x y ys)

lemma sortLe_perm (le : α → α → Bool) (l : List α) : (sortLe le l).Perm l := by
  induction l with
  | nil => exact List.Perm.refl _
  | cons x xs ih =>
    exact (insertLe_perm le x (sortLe le xs)).trans (ih.cons x)

lemma mem_insertLe (le : α → α → Bool) (x a : α) (l : List α) :
    a ∈ insertLe le x l ↔ a = x ∨ a ∈ l := by
  rw [(insertLe_perm le x l).mem_iff]
  simp

lemma pairwise_insertLe (le : α → α → Bool)
    (htrans : ∀ a b c, le a b = true → le b c = true → le a c = true)
    (htot : ∀ a b, le a b = true ∨ le b a = true)
    (x : α) (l : List α) (hl : l.Pairwise (fun a b => le a b = true)) :
    (insertLe le x l).Pairwise (fun a b => le a b = true) := by
  induction l with
  | nil => simp [insertLe]
  | cons y ys ih =>
    rcases List.pairwise_cons.mp hl with ⟨hy, hys⟩
    by_cases h : le x y = true
    · simp only [insertLe, if_pos h]
      refine List.pairwise_cons.mpr ⟨?_, hl⟩
      intro b hb
      rcases List.mem_cons.mp hb with rfl | hb
      · exact h
      · exact htrans _ _ _ h (hy b hb)
    · simp only [insertLe, if_neg h]
      refine List.pairwise_cons.mpr ⟨?_, ih hys⟩
      intro b hb
      rcases (mem_insertLe le x b ys).mp hb with rfl | hb
      · rcases htot b y with h' | h'
        · exact absurd h' h
        · exact h'
      · exact hy b hb

lemma sortLe_pairwise (le : α → α → Bool)
    (htrans : ∀ a b c, le a b = true → le b c = true → le a c = true)
    (htot : ∀ a b, le a b = true ∨ le b a = true)
    (l : List α) : (sortLe le l).Pairwise (fun a b => le a b = true) := by
  induction l with
  | nil => simp [sortLe]
  | cons x xs ih => exact pairwise_insertLe le htrans htot x (sortLe le xs) ih

lemma sortLe_eq_nil_iff (le : α → α → Bool) (l : List α) :
    sortLe le l = [] ↔ l = [] := by
  constructor
  · intro h
    have := (sortLe_perm le l).length_eq
    rw [h] at this
    exact List.length_eq_zero.mp this.symm
  · intro h
    subst h
    rfl

/-- The extension part of `os.path.splitext`: the suffix from the last dot,
where leading dots of the name do not begin an extension. -/
def pyExtension (nombre : List Char) : List Char :=
  let pruebas := nombre.dropWhile (fun c => c = '.')
  if pruebas.contains '.' then
    '.' :: (pruebas.reverse.takeWhile (fun c => c ≠ '.')).reverse
  else []

/-- One entry of the configuration directory: its base name, and the lines
of the file, or `none` when opening the file raises `OSError`. -/
abbrev Entrada : Type := String × Option (List String)

/-- Python's string order: lexicographic on code points. -/
def leListChar : List Char → List Char → Bool
  | [], _ => true
  | _ :: _, [] => false
  | a :: as, b :: bs =>
    if a.toNat < b.toNat then true
    else if b.toNat < a.toNat then false
    else leListChar as bs

/-- Name order used by `sorted(archivos)`. -/
def nombreLe (a b : Entrada) : Bool := leListChar a.1.toList b.1.toList

/-- Function `obtener_archivos_config`: keep the entries whose extension is in
`EXTENSIONS`, sorted by name. -/
def obtener_archivos_config (entradas : List Entrada) : List Entrada :=
  sortLe nombreLe
    (entradas.filter (fun e => (EXTENSIONS.map String.toList).contains (pyExtension e.1.toList)))

/-- The dictionary appended to `resultados` for one readable file: the
count plus the four `None`-initialised difference fields. -/
def crear_registro (nombre : String) (contenido : List String) : Registro :=
  { archivo := nombre
    lineas_codigo := contar_lineas_config IGNORE_COMMENTS contenido
    diff_vs_min_abs := none
    diff_vs_min_pct := none
    diff_vs_ref_abs := none
    diff_vs_ref_pct := none }

/-- The per-file loop of `main` (lines 143-158): count each file in order;
an unopenable file raises, which aborts the loop with that file's name. -/
def conteo_por_archivo : List Entrada → Except String (List Registro)
  | [] => Except.ok []
  | (nombre, none) :: _ => Except.error nombre
  | (nombre, some contenido) :: resto =>
    (conteo_por_archivo resto).map (fun rs => crear_registro nombre contenido :: rs)

/-- The condition of the reference scan: the lowercased name contains the
keyword (`"mpls"`) and does not contain `"srv"`. -/
def es_referencia (r : Registro) : Bool :=
  pyContiene (minusculas REFERENCIA_KEYWORD) (minusculas r.archivo)
    && !pyContiene "srv".toList (minusculas r.archivo)

/-- Function `encontrar_referencia`: first record satisfying `es_referencia`, if
any. -/
def encontrar_referencia (resultados : List Registro) : Option Registro :=
  resultados.find? es_referencia

/-- Function `guardar_csv` writes one CSV row per record, iterating the given list
in order; the produced file is modelled by that row sequence. -/
def guardar_csv (resultados : List Registro) : List Registro :=
  resultados

/-- Comparison used by `sorted(resultados, key=lambda x: x["lineas_codigo"])`. -/
def ordenLineas (a b : Registro) : Bool := decide (a.lineas_codigo ≤ b.lineas_codigo)

/-- Body of the filling loop (lines 177-193) for one record `r`, given
`min_lineas` and the optional `ref_lineas`. -/
def rellenar (min_lineas : Nat) (ref_lineas : Option Nat) (r : Registro) : Registro :=
  let lineas : Int := r.lineas_codigo
  let diff_min_abs : Int := lineas - min_lineas
  let diff_min_pct : ℚ := if 0 < min_lineas then pct diff_min_abs min_lineas else 0
  let r1 : Registro :=
    { r with
        diff_vs_min_abs := some diff_min_abs
        diff_vs_min_pct := some (round2 diff_min_pct) }
  match ref_lineas with
  | none => r1
  | some rl =>
    let diff_ref_abs : Int := lineas - rl
    let diff_ref_pct : ℚ := if 0 < rl then pct diff_ref_abs rl else 0
    { r1 with
        diff_vs_ref_abs := some diff_ref_abs
        diff_vs_ref_pct := some (round2 diff_ref_pct) }

/-- Everything `main` computes after the counting loop: the sorted and
filled records, the extremes, the reference data and the CSV rows. -/
structure Report where
  resultados_ordenados : List Registro
  mas_simple : Registro
  mas_complejo : Registro
  min_lineas : Nat
  max_lineas : Nat
  referencia : Option Registro
  diff_extremos : Int
  diff_extremos_pct : ℚ
  csv : List Registro
deriving DecidableEq

/-- Steps 2-6 of `main` (lines 162-238).  Returns `none` when the record
list is empty, where Python's `resultados_ordenados[0]` would raise
`IndexError`. -/
def analizar (resultados : List Registro) : Option Report :=
  let resultados_ordenados := sortLe ordenLineas resultados
  match resultados_ordenados with
  | [] => none
  | mas_simple0 :: _ =>
    let mas_complejo0 := resultados_ordenados.getLastD mas_simple0
    let min_lineas := mas_simple0.lineas_codigo
    let max_lineas := mas_complejo0.lineas_codigo
    let referencia0 := encontrar_referencia resultados_ordenados
    let ref_lineas := referencia0.map (fun r => r.lineas_codigo)
    let rellenados := resultados_ordenados.map (rellenar min_lineas ref_lineas)
    some
      { resultados_ordenados := rellenados
        mas_simple := rellenar min_lineas ref_lineas mas_simple0
        mas_complejo := rellenar min_lineas ref_lineas mas_complejo0
        min_lineas := min_lineas
        max_lineas := max_lineas
        referencia := encontrar_referencia rellenados
        diff_extremos := (max_lineas : Int) - (min_lineas : Int)
        diff_extremos_pct :=
          if 0 < max_lineas then pct ((max_lineas : Int) - (min_lineas : Int)) max_lineas else 0
        csv := guardar_csv rellenados }

/-- The observable outcome of one run of `main`. -/
inductive RunResult where
  | carpeta_inexistente : RunResult
  | sin_archivos : RunResult
  | excepcion (mensaje : String) : RunResult
  | ok (rep : Report) : RunResult
deriving DecidableEq

/-- Function `main`, over an explicit file system: whether `CONFIG_DIR` exists, and
its listing.  Mirrors the control flow of lines 126-238.  (Named
`main_script` because Lean reserves `main` for `IO` entry points.) -/
def main_script (carpeta_existe : Bool) (entradas : List Entrada) : RunResult :=
  if !carpeta_existe then RunResult.carpeta_inexistente
  else
    let archivos := obtener_archivos_config entradas
    if archivos.isEmpty then RunResult.sin_archivos
    else
      match conteo_por_archivo archivos with
      | Except.error nombre => RunResult.excepcion nombre
      | Except.ok resultados =>
        match analizar resultados with
        | none => RunResult.excepcion "IndexError"
        | some rep => RunResult.ok rep

lemma char_eq_of_toNat_eq {a b : Char} (h : a.toNat = b.toNat) : a = b := by
  apply Char.eq_of_val_eq
  apply UInt32.eq_of_val_eq
  exact Fin.ext h

lemma leListChar_cons_iff (a b : Char) (as bs : List Char) :
    leListChar (a :: as) (b :: bs) = true
      ↔ a.toNat < b.toNat ∨ (a.toNat = b.toNat ∧ leListChar as bs = true) := by
  have hstep : leListChar (a :: as) (b :: bs)
      = if a.toNat < b.toNat then true
        else if b.toNat < a.toNat then false
        else leListChar as bs := rfl
  rw [hstep]
  rcases Nat.lt_trichotomy a.toNat b.toNat with h | h | h
  · simp [h]
  · have h1 : ¬ a.toNat < b.toNat := by omega
    have h2 : ¬ b.toNat < a.toNat := by omega
    rw [if_neg h1, if_neg h2]
    simp [h]
  · have h1 : ¬ a.toNat < b.toNat := by omega
    have h3 : a.toNat ≠ b.toNat := by omega
    simp [h1, h, h3]

lemma leListChar_total : ∀ x y : List Char, leListChar x y = true ∨ leListChar y x = true
  | [], _ => Or.inl rfl
  | _ :: _, [] => Or.inr rfl
  | a :: as, b :: bs => by
    rcases Nat.lt_trichotomy a.toNat b.toNat with h | h | h
    · exact Or.inl ((leListChar_cons_iff a b as bs).mpr (Or.inl h))
    · rcases leListChar_total as bs with h' | h'
      · exact Or.inl ((leListChar_cons_iff a b as bs).mpr (Or.inr ⟨h, h'⟩))
      · exact Or.inr ((leListChar_cons_iff b a bs as).mpr (Or.inr ⟨h.symm, h'⟩))
    · exact Or.inr ((leListChar_cons_iff b a bs as).mpr (Or.inl h))

lemma leListChar_trans :
    ∀ x y z : List Char, leListChar x y = true → leListChar y z = true → leListChar x z = true
  | [], _, _, _, _ => rfl
  | _ :: _, [], _, hxy, _ => by simp [leListChar] at hxy
  | _ :: _, _ :: _, [], _, hyz => by simp [leListChar] at hyz
  | a :: as, b :: bs, c :: cs, hxy, hyz => by
    rcases (leListChar_cons_iff a b as bs).mp hxy with h1 | ⟨h1, h1'⟩ <;>
      rcases (leListChar_cons_iff b c bs cs).mp hyz with h2 | ⟨h2, h2'⟩
    · exact (leListChar_cons_iff a c as cs).mpr (Or.inl (h1.trans h2))
    · exact (leListChar_cons_iff a c as cs).mpr (Or.inl (h2 ▸ h1))
    · exact (leListChar_cons_iff a c as cs).mpr (Or.inl (h1 ▸ h2))
    · exact (leListChar_cons_iff a c as cs).mpr
        (Or.inr ⟨h1.trans h2, leListChar_trans as bs cs h1' h2'⟩)

lemma leListChar_antisymm :
    ∀ x y : List Char, leListChar x y = true → leListChar y x = true → x = y
  | [], [], _, _ => rfl
  | [], _ :: _, _, hyx => by simp [leListChar] at hyx
  | _ :: _, [], hxy, _ => by simp [leListChar] at hxy
  | a :: as, b :: bs, hxy, hyx => by
    rcases (leListChar_cons_iff a b as bs).mp hxy with h1 | ⟨h1, h1'⟩ <;>
      rcases (leListChar_cons_iff b a bs as).mp hyx with h2 | ⟨h2, h2'⟩ <;>
        try omega
    rw [char_eq_of_toNat_eq h1, leListChar_antisymm as bs h1' h2']

/-- A list ordered by an asymmetric relation is determined by its
multiset. -/
lemma eq_of_perm_of_pairwise_asymm {R : α → α → Prop}
    (hasymm : ∀ a b, R a b → R b a → False) :
    ∀ (l₁ l₂ : List α), l₁.Perm l₂ → l₁.Pairwise R → l₂.Pairwise R → l₁ = l₂
  | [], l₂, hp, _, _ => hp.nil_eq
  | a :: t₁, l₂, hp, h₁, h₂ => by
    cases l₂ with
    | nil => exact absurd hp.symm (by simp)
    | cons b t₂ =>
      rcases List.pairwise_cons.mp h₁ with ⟨ha, ht₁⟩
      rcases List.pairwise_cons.mp h₂ with ⟨hb, ht₂⟩
      by_cases hab : a = b
      · subst hab
        rw [eq_of_perm_of_pairwise_asymm hasymm t₁ t₂ hp.cons_inv ht₁ ht₂]
      · exfalso
        have hain : a ∈ b :: t₂ := hp.mem_iff.mp (List.mem_cons_self a t₁)
        have hbin : b ∈ a :: t₁ := hp.symm.mem_iff.mp (List.mem_cons_self b t₂)
        rcases List.mem_cons.mp hain with h | h
        · exact hab h
        · rcases List.mem_cons.mp hbin with h' | h'
          · exact hab h'.symm
          · exact hasymm a b (ha b h') (hb a h)

/-- Lemma that `find?` returns the first match: everything before it fails the
predicate. -/
lemma find?_eq_some_split {p : α → Bool} :
    ∀ {l : List α} {a : α}, l.find? p = some a →
      p a = true ∧ ∃ pre post, l = pre ++ a :: post ∧ ∀ x ∈ pre, p x = false
  | [], a, h => by simp at h
  | b :: bs, a, h => by
    by_cases hb : p b = true
    · rw [List.find?_cons_of_pos _ hb] at h
      obtain rfl : b = a := by injection h
      exact ⟨hb, [], bs, rfl, by simp⟩
    · rw [List.find?_cons_of_neg _ (by simpa using hb)] at h
      obtain ⟨hpa, pre, post, rfl, hpre⟩ := find?_eq_some_split h
      refine ⟨hpa, b :: pre, post, rfl, ?_⟩
      intro x hx
      rcases List.mem_cons.mp hx with rfl | hx
      · simpa using hb
      · exact hpre x hx

lemma pct_zero (base : Nat) : pct 0 base = 0 := by
  rw [pct_eq_div]
  simp

lemma rellenar_archivo (m : Nat) (rl : Option Nat) (r : Registro) :
    (rellenar m rl r).archivo = r.archivo := by
  cases rl <;> rfl

lemma rellenar_lineas (m : Nat) (rl : Option Nat) (r : Registro) :
    (rellenar m rl r).lineas_codigo = r.lineas_codigo := by
  cases rl <;> rfl

lemma rellenar_diff_min_abs (m : Nat) (rl : Option Nat) (r : Registro) :
    (rellenar m rl r).diff_vs_min_abs = some ((r.lineas_codigo : Int) - (m : Int)) := by
  cases rl <;> rfl

lemma rellenar_diff_min_pct (m : Nat) (rl : Option Nat) (r : Registro) :
    (rellenar m rl r).diff_vs_min_pct
      = some (round2 (if 0 < m then pct ((r.lineas_codigo : Int) - (m : Int)) m else 0)) := by
  cases rl <;> rfl

lemma rellenar_ref_none (m : Nat) (r : Registro) :
    (rellenar m none r).diff_vs_ref_abs = r.diff_vs_ref_abs
      ∧ (rellenar m none r).diff_vs_ref_pct = r.diff_vs_ref_pct :=
  ⟨rfl, rfl⟩

lemma rellenar_ref_some (m : Nat) (rl : Nat) (r : Registro) :
    (rellenar m (some rl) r).diff_vs_ref_abs = some ((r.lineas_codigo : Int) - (rl : Int))
      ∧ (rellenar m (some rl) r).diff_vs_ref_pct
          = some (round2 (if 0 < rl then pct ((r.lineas_codigo : Int) - (rl : Int)) rl else 0)) :=
  ⟨rfl, rfl⟩

lemma es_referencia_rellenar (m : Nat) (rl : Option Nat) (r : Registro) :
    es_referencia (rellenar m rl r) = es_referencia r := by
  unfold es_referencia
  rw [rellenar_archivo]

lemma encontrar_referencia_map_rellenar (m : Nat) (rl : Option Nat) (l : List Registro) :
    encontrar_referencia (l.map (rellenar m rl))
      = (encontrar_referencia l).map (rellenar m rl) := by
  unfold encontrar_referencia
  rw [List.find?_map]
  have hp : es_referencia ∘ rellenar m rl = es_referencia :=
    funext (es_referencia_rellenar m rl)
  rw [hp]

lemma ordenLineas_trans (a b c : Registro) :
    ordenLineas a b = true → ordenLineas b c = true → ordenLineas a c = true := by
  unfold ordenLineas
  simp only [decide_eq_true_eq]
  omega

lemma ordenLineas_total (a b : Registro) :
    ordenLineas a b = true ∨ ordenLineas b a = true := by
  unfold ordenLineas
  simp only [decide_eq_true_eq]
  omega

lemma nombreLe_trans (a b c : Entrada) :
    nombreLe a b = true → nombreLe b c = true → nombreLe a c = true :=
  fun h1 h2 => leListChar_trans _ _ _ h1 h2

lemma nombreLe_total (a b : Entrada) : nombreLe a b = true ∨ nombreLe b a = true :=
  leListChar_total _ _

lemma string_eq_of_toList_eq {s t : String} (h : s.toList = t.toList) : s = t :=
  String.ext h

/-- An unreadable file makes the counting loop raise. -/
lemma conteo_error_of_none :
    ∀ {l : List Entrada}, (∃ e ∈ l, e.2 = none) →
      ∃ nombre, conteo_por_archivo l = Except.error nombre
  | [], h => by simp at h
  | (nombre, none) :: resto, _ => ⟨nombre, rfl⟩
  | (nombre, some contenido) :: resto, h => by
    have : ∃ e ∈ resto, e.2 = none := by
      rcases h with ⟨e, he, h2⟩
      rcases List.mem_cons.mp he with rfl | he
      · simp at h2
      · exact ⟨e, he, h2⟩
    obtain ⟨n, hn⟩ := conteo_error_of_none this
    refine ⟨n, ?_⟩
    simp [conteo_por_archivo, hn, Except.map]

/-- When every file is readable the counting loop produces one record per
file, in order. -/
lemma conteo_ok_of_all_some :
    ∀ {l : List Entrada}, (∀ e ∈ l, e.2 ≠ none) →
      ∃ rs, conteo_por_archivo l = Except.ok rs
        ∧ rs.length = l.length
        ∧ ∀ r ∈ rs, ∃ nombre contenido, r = crear_registro nombre contenido
  | [], _ => ⟨[], rfl, rfl, by simp⟩
  | (nombre, none) :: resto, h => by
    exact absurd rfl (h (nombre, none) (List.mem_cons_self _ _))
  | (nombre, some contenido) :: resto, h => by
    obtain ⟨rs, hrs, hlen, hform⟩ :=
      conteo_ok_of_all_some (fun e he => h e (List.mem_cons_of_mem _ he))
    refine ⟨crear_registro nombre contenido :: rs, ?_, by simp [hlen], ?_⟩
    · simp [conteo_por_archivo, hrs, Except.map]
    · intro r hr
      rcases List.mem_cons.mp hr with rfl | hr
      · exact ⟨nombre, contenido, rfl⟩
      · exact hform r hr

/-- Whatever the counting loop returns came from a `crear_registro`, so
all difference fields start out as `None`. -/
lemma conteo_ok_campos :
    ∀ {l : List Entrada} {rs : List Registro}, conteo_por_archivo l = Except.ok rs →
      ∀ r ∈ rs, r.diff_vs_min_abs = none ∧ r.diff_vs_min_pct = none
        ∧ r.diff_vs_ref_abs = none ∧ r.diff_vs_ref_pct = none := by
  intro l
  induction l with
  | nil =>
    intro rs h r hr
    simp [conteo_por_archivo] at h
    subst h
    simp at hr
  | cons e resto ih =>
    intro rs h r hr
    match e with
    | (nombre, none) => simp [conteo_por_archivo] at h
    | (nombre, some contenido) =>
      simp only [conteo_por_archivo] at h
      cases hres : conteo_por_archivo resto with
      | error n => rw [hres] at h; simp [Except.map] at h
      | ok rs' =>
        rw [hres] at h
        simp only [Except.map] at h
        obtain rfl : crear_registro nombre contenido :: rs' = rs := by
          injection h
        rcases List.mem_cons.mp hr with rfl | hr
        · exact ⟨rfl, rfl, rfl, rfl⟩
        · exact ih hres r hr

/-- Unfolding of a successful `analizar`: the sorted list is non-empty and
every field of the report is as computed in steps 2-6 of `main`. -/
lemma analizar_eq_some {resultados : List Registro} {rep : Report}
    (h : analizar resultados = some rep) :
    ∃ ms rest,
      sortLe ordenLineas resultados = ms :: rest
      ∧ rep.min_lineas = ms.lineas_codigo
      ∧ rep.max_lineas = ((ms :: rest).getLastD ms).lineas_codigo
      ∧ rep.resultados_ordenados
          = (ms :: rest).map
              (rellenar ms.lineas_codigo
                ((encontrar_referencia (ms :: rest)).map (fun r => r.lineas_codigo)))
      ∧ rep.referencia = encontrar_referencia rep.resultados_ordenados
      ∧ rep.diff_extremos = (rep.max_lineas : Int) - (rep.min_lineas : Int)
      ∧ rep.diff_extremos_pct
          = (if 0 < rep.max_lineas
              then pct ((rep.max_lineas : Int) - (rep.min_lineas : Int)) rep.max_lineas else 0)
      ∧ rep.csv = rep.resultados_ordenados := by
  unfold analizar at h
  cases hs : sortLe ordenLineas resultados with
  | nil => rw [hs] at h; simp at h
  | cons ms rest =>
    rw [hs] at h
    simp only [Option.some.injEq] at h
    subst h
    exact ⟨ms, rest, rfl, rfl, rfl, rfl, rfl, rfl, rfl, rfl⟩

lemma main_ok_elim {carpeta_existe : Bool} {entradas : List Entrada} {rep : Report}
    (h : main_script carpeta_existe entradas = RunResult.ok rep) :
    ∃ resultados,
      conteo_por_archivo (obtener_archivos_config entradas) = Except.ok resultados
        ∧ analizar resultados = some rep := by
  cases carpeta_existe with
  | false => simp [main_script] at h
  | true =>
    simp only [main_script, Bool.not_true, Bool.false_eq_true, if_false] at h
    cases hE : (obtener_archivos_config entradas).isEmpty with
    | true => rw [hE] at h; simp at h
    | false =>
      rw [hE] at h
      simp only [Bool.false_eq_true, if_false] at h
      cases hc : conteo_por_archivo (obtener_archivos_config entradas) with
      | error nombre =>
        rw [hc] at h
        have h2 : RunResult.excepcion nombre = RunResult.ok rep := h
        simp at h2
      | ok resultados =>
        rw [hc] at h
        have h2 : (match analizar resultados with
            | none => RunResult.excepcion "IndexError"
            | some rep0 => RunResult.ok rep0) = RunResult.ok rep := h
        cases ha : analizar resultados with
        | none =>
          rw [ha] at h2
          have h3 : RunResult.excepcion "IndexError" = RunResult.ok rep := h2
          simp at h3
        | some rep' =>
          rw [ha] at h2
          have h3 : RunResult.ok rep' = RunResult.ok rep := h2
          have h4 : rep' = rep := by injection h3
          subst h4
          exact ⟨resultados, rfl, ha⟩

lemma sortLe_min {resultados ms rest} (hs : sortLe ordenLineas resultados = ms :: rest) :
    ∀ r ∈ ms :: rest, ms.lineas_codigo ≤ r.lineas_codigo := by
  have hp := sortLe_pairwise ordenLineas ordenLineas_trans ordenLineas_total resultados
  rw [hs] at hp
  rcases List.pairwise_cons.mp hp with ⟨hhead, _⟩
  intro r hr
  rcases List.mem_cons.mp hr with rfl | hr
  · exact le_refl _
  · simpa [ordenLineas] using hhead r hr

/-- Ten code lines, as in scenario 2 of the spec. -/
def contenido_diez : List String :=
  ["c1", "c2", "c3", "c4", "c5", "c6", "c7", "c8", "c9", "c10"]

/-- Fourteen code lines. -/
def contenido_catorce : List String := contenido_diez ++ ["c11", "c12", "c13", "c14"]

/-- Scenario 2 of the spec: `pe1-mpls.txt` with 10 code lines and
`pe1-mpls-srv6.txt` with 14. -/
def escenario_mpls : List Entrada :=
  [("pe1-mpls.txt", some contenido_diez), ("pe1-mpls-srv6.txt", some contenido_catorce)]

/-- A directory whose alphabetical order differs from its complexity
order: `a.txt` has 3 code lines, `b.txt` has 1. -/
def escenario_orden : List Entrada :=
  [("a.txt", some ["c1", "c2", "c3"]), ("b.txt", some ["c1"])]

/-- A directory with no name matching the reference heuristic. -/
def escenario_sin_ref : List Entrada :=
  [("pe1-srv6.txt", some ["c1", "c2"]), ("pe2-isis.txt", some ["c1"])]

/-- A directory with one readable file and one unreadable file. -/
def entradas_lectura : List Entrada :=
  [("pe1-mpls.txt", some ["hostname pe1"]), ("pe2-srv6.txt", none)]

/-- C3. In every produced report, each record's `diff_vs_min_abs` is
`lineas_codigo - min_lineas`, that difference is non-negative because
`min_lineas` is a lower bound of the code-line counts, it is zero exactly
when the record attains `min_lineas`, and some record does attain it. -/
theorem diferencias_vs_minimo (carpeta_existe : Bool) (entradas : List Entrada)
    (rep : Report) (h : main_script carpeta_existe entradas = RunResult.ok rep) :
    (∀ r ∈ rep.resultados_ordenados,
        r.diff_vs_min_abs = some ((r.lineas_codigo : Int) - (rep.min_lineas : Int))
          ∧ (rep.min_lineas : Int) ≤ (r.lineas_codigo : Int)
          ∧ (r.diff_vs_min_abs = some 0 ↔ r.lineas_codigo = rep.min_lineas))
      ∧ ∃ r ∈ rep.resultados_ordenados, r.lineas_codigo = rep.min_lineas := by
  obtain ⟨resultados, hc, ha⟩ := main_ok_elim h
  obtain ⟨ms, rest, hs, hmin, hmax, hres, href, hde, hdep, hcsv⟩ := analizar_eq_some ha
  constructor
  · intro r hr
    rw [hres] at hr
    obtain ⟨r0, hr0, rfl⟩ := List.mem_map.mp hr
    have hmins := sortLe_min hs r0 hr0
    refine ⟨?_, ?_, ?_⟩
    · rw [rellenar_diff_min_abs, rellenar_lineas, hmin]
    · rw [rellenar_lineas, hmin]
      exact_mod_cast hmins
    · rw [rellenar_diff_min_abs, rellenar_lineas, hmin]
      simp only [Option.some.injEq]
      omega
  · refine ⟨rellenar ms.lineas_codigo
      ((encontrar_referencia (ms :: rest)).map (fun r => r.lineas_codigo)) ms, ?_, ?_⟩
    · rw [hres]
      exact List.mem_map_of_mem _ (List.mem_cons_self _ _)
    · rw [rellenar_lineas, hmin]

/-- Witness for C3 at scenario 2. -/
theorem diferencias_vs_minimo_testigo :
    ∃ rep, main_script true escenario_mpls = RunResult.ok rep
      ∧ ((∀ r ∈ rep.resultados_ordenados,
            r.diff_vs_min_abs = some ((r.lineas_codigo : Int) - (rep.min_lineas : Int))
              ∧ (rep.min_lineas : Int) ≤ (r.lineas_codigo : Int)
              ∧ (r.diff_vs_min_abs = some 0 ↔ r.lineas_codigo = rep.min_lineas))
          ∧ ∃ r ∈ rep.resultados_ordenados, r.lineas_codigo = rep.min_lineas) :=
  ⟨_, rfl, diferencias_vs_minimo true escenario_mpls _ rfl⟩

/-- C7. When no reference is found, both `diff_vs_ref` fields are `None`
in every record of the report. -/
theorem sin_referencia_campos_nulos (carpeta_existe : Bool) (entradas : List Entrada)
    (rep : Report) (h : main_script carpeta_existe entradas = RunResult.ok rep)
    (hnoref : rep.referencia = none) :
    ∀ r ∈ rep.resultados_ordenados,
      r.diff_vs_ref_abs = none ∧ r.diff_vs_ref_pct = none := by
  obtain ⟨resultados, hc, ha⟩ := main_ok_elim h
  obtain ⟨ms, rest, hs, hmin, hmax, hres, href, hde, hdep, hcsv⟩ := analizar_eq_some ha
  have hnone : encontrar_referencia (ms :: rest) = none := by
    rw [href, hres, encontrar_referencia_map_rellenar] at hnoref
    exact Option.map_eq_none.mp hnoref
  intro r hr
  rw [hres, hnone,
    show Option.map (fun r : Registro => r.lineas_codigo) none = none from rfl] at hr
  obtain ⟨r0, hr0, rfl⟩ := List.mem_map.mp hr
  have hr0res : r0 ∈ resultados := (sortLe_perm ordenLineas resultados).mem_iff.mp (hs ▸ hr0)
  obtain ⟨_, _, habs, hpct⟩ := conteo_ok_campos hc r0 hr0res
  rw [(rellenar_ref_none _ _).1, (rellenar_ref_none _ _).2, habs, hpct]
  exact ⟨rfl, rfl⟩

/-- Witness for C7 at a directory with no matching name. -/
theorem sin_referencia_campos_nulos_testigo :
    ∃ rep, main_script true escenario_sin_ref = RunResult.ok rep
      ∧ rep.referencia = none
      ∧ ∀ r ∈ rep.resultados_ordenados,
          r.diff_vs_ref_abs = none ∧ r.diff_vs_ref_pct = none :=
  ⟨_, rfl, by decide, sin_referencia_campos_nulos true escenario_sin_ref _ rfl (by decide)⟩

/-- C10. Whenever a reference exists, the reference record itself carries
`diff_vs_ref_abs = 0` and `diff_vs_ref_pct = 0.0`. -/
theorem referencia_diff_cero (carpeta_existe : Bool) (entradas : List Entrada)
    (rep : Report) (r : Registro)
    (h : main_script carpeta_existe entradas = RunResult.ok rep)
    (href : rep.referencia = some r) :
    r.diff_vs_ref_abs = some 0 ∧ r.diff_vs_ref_pct = some 0 := by
  obtain ⟨resultados, hc, ha⟩ := main_ok_elim h
  obtain ⟨ms, rest, hs, hmin, hmax, hres, hrefeq, hde, hdep, hcsv⟩ := analizar_eq_some ha
  rw [hrefeq, hres, encontrar_referencia_map_rellenar] at href
  obtain ⟨r0, hr0, rfl⟩ := Option.map_eq_some'.mp href
  rw [hr0,
    show Option.map (fun r : Registro => r.lineas_codigo) (some r0)
      = some r0.lineas_codigo from rfl]
  have hzero : (r0.lineas_codigo : Int) - (r0.lineas_codigo : Int) = 0 := by omega
  constructor
  · rw [(rellenar_ref_some _ _ _).1, hzero]
  · rw [(rellenar_ref_some _ _ _).2, hzero]
    have hcond : (if 0 < r0.lineas_codigo then pct 0 r0.lineas_codigo else 0) = 0 := by
      split
      · exact pct_zero _
      · rfl
    rw [hcond, round2_zero]

/-- Witness for C10 at scenario 2. -/
theorem referencia_diff_cero_testigo :
    ∃ rep r, main_script true escenario_mpls = RunResult.ok rep
      ∧ rep.referencia = some r
      ∧ r.diff_vs_ref_abs = some 0 ∧ r.diff_vs_ref_pct = some 0 :=
  ⟨_, _, rfl, rfl, referencia_diff_cero true escenario_mpls _ _ rfl rfl⟩

/-- C8. With no matching files the run stops at the printed notice: no
report is produced, and a report can only arise from a non-empty record
list (so min/max are never taken over an empty set). -/
theorem conjunto_vacio_sin_reporte (entradas : List Entrada)
    (h : obtener_archivos_config entradas = []) :
    main_script true entradas = RunResult.sin_archivos
      ∧ (∀ rep, main_script true entradas ≠ RunResult.ok rep)
      ∧ (∀ resultados rep, analizar resultados = some rep →
          resultados ≠ [] ∧ rep.resultados_ordenados ≠ []) := by
  have hmain : main_script true entradas = RunResult.sin_archivos := by
    simp [main_script, h]
  refine ⟨hmain, ?_, ?_⟩
  · intro rep hrep
    rw [hmain] at hrep
    simp at hrep
  · intro resultados rep ha
    obtain ⟨ms, rest, hs, hmin, hmax, hres, hrefeq, hde, hdep, hcsv⟩ := analizar_eq_some ha
    constructor
    · intro h0
      rw [h0] at hs
      simp [sortLe] at hs
    · rw [hres]
      simp

/-- Witness for C8: a directory whose only file has a non-matching
extension. -/
theorem conjunto_vacio_sin_reporte_testigo :
    obtener_archivos_config [(("notas.bin" : String), some (["c1"] : List String))] = []
      ∧ (main_script true [(("notas.bin" : String), some (["c1"] : List String))]
            = RunResult.sin_archivos
          ∧ (∀ rep, main_script true [(("notas.bin" : String), some (["c1"] : List String))]
              ≠ RunResult.ok rep)
          ∧ (∀ resultados rep, analizar resultados = some rep →
              resultados ≠ [] ∧ rep.resultados_ordenados ≠ [])) :=
  ⟨by decide, conjunto_vacio_sin_reporte _ (by decide)⟩

/-- C9. The CSV rows are exactly the analysis records in their sorted
order, so consecutive rows have non-decreasing code-line counts. -/
theorem csv_orden_ascendente (carpeta_existe : Bool) (entradas : List Entrada)
    (rep : Report) (h : main_script carpeta_existe entradas = RunResult.ok rep) :
    rep.csv = rep.resultados_ordenados
      ∧ rep.csv.Pairwise (fun a b => a.lineas_codigo ≤ b.lineas_codigo) := by
  obtain ⟨resultados, hc, ha⟩ := main_ok_elim h
  obtain ⟨ms, rest, hs, hmin, hmax, hres, hrefeq, hde, hdep, hcsv⟩ := analizar_eq_some ha
  refine ⟨hcsv, ?_⟩
  rw [hcsv, hres]
  rw [List.pairwise_map]
  have hp := sortLe_pairwise ordenLineas ordenLineas_trans ordenLineas_total resultados
  rw [hs] at hp
  refine hp.imp ?_
  intro a b hab
  rw [rellenar_lineas, rellenar_lineas]
  simpa [ordenLineas] using hab

/-- Witness for C9: with `a.txt` (3 lines) and `b.txt` (1 line) the CSV
order is `b.txt`, `a.txt`, not the alphabetical order. -/
theorem csv_orden_ascendente_testigo :
    ∃ rep, main_script true escenario_orden = RunResult.ok rep
      ∧ (rep.csv = rep.resultados_ordenados
          ∧ rep.csv.Pairwise (fun a b => a.lineas_codigo ≤ b.lineas_codigo))
      ∧ rep.csv.map (fun r => r.archivo) = ["b.txt", "a.txt"] :=
  ⟨_, rfl, csv_orden_ascendente true escenario_orden _ rfl, by decide⟩

/-- C2 counterexample: with `pe1-mpls.txt` readable and `pe2-srv6.txt`
unreadable, the run ends in the uncaught exception — the readable file's
analysis never completes and no report is produced, refuting per-file
containment of read failures. -/
theorem lectura_fallida_contraejemplo :
    main_script true entradas_lectura = RunResult.excepcion "pe2-srv6.txt"
      ∧ (∀ rep, main_script true entradas_lectura ≠ RunResult.ok rep)
      ∧ (∃ rep, main_script true [("pe1-mpls.txt", some ["hostname pe1"])]
          = RunResult.ok rep) := by
  refine ⟨rfl, ?_, ⟨_, rfl⟩⟩
  intro rep hrep
  rw [show main_script true entradas_lectura
    = RunResult.excepcion "pe2-srv6.txt" from rfl] at hrep
  simp at hrep

/-- C2 as amended: a file that cannot be opened raises an exception that
propagates out of the per-file loop, so the whole run aborts and no
report is produced; there is no per-file exclusion. -/
theorem lectura_fallida_aborta (entradas : List Entrada)
    (h : ∃ e ∈ obtener_archivos_config entradas, e.2 = none) :
    ∃ nombre, main_script true entradas = RunResult.excepcion nombre
      ∧ ∀ rep, main_script true entradas ≠ RunResult.ok rep := by
  obtain ⟨nombre, hn⟩ := conteo_error_of_none h
  have hne : (obtener_archivos_config entradas).isEmpty = false := by
    rcases h with ⟨e, he, _⟩
    cases hE : (obtener_archivos_config entradas).isEmpty
    · rfl
    · rw [List.isEmpty_iff.mp hE] at he
      simp at he
  have hmain : main_script true entradas = RunResult.excepcion nombre := by
    simp only [main_script, Bool.not_true, Bool.false_eq_true, if_false, hne, hn]
  refine ⟨nombre, hmain, ?_⟩
  intro rep hrep
  rw [hmain] at hrep
  simp at hrep

/-- Witness for the amended C2. -/
theorem lectura_fallida_aborta_testigo :
    (∃ e ∈ obtener_archivos_config entradas_lectura, e.2 = none)
      ∧ ∃ nombre, main_script true entradas_lectura = RunResult.excepcion nombre
          ∧ ∀ rep, main_script true entradas_lectura ≠ RunResult.ok rep :=
  ⟨by decide, lectura_fallida_aborta entradas_lectura (by decide)⟩

/-- C4. The reference of a report is the first record of the sorted list
whose lowercased name contains the keyword and not `"srv"`
(`es_referencia`); when no record matches there is no reference.  On
scenario 2 the reference is `pe1-mpls.txt` and `pe1-mpls-srv6.txt` gets
`diff_vs_ref_abs = 4` and `diff_vs_ref_pct = 40.0`. -/
theorem deteccion_referencia :
    (∀ (carpeta_existe : Bool) (entradas : List Entrada) (rep : Report),
        main_script carpeta_existe entradas = RunResult.ok rep →
          (∀ r, rep.referencia = some r →
              es_referencia r = true
                ∧ ∃ pre post, rep.resultados_ordenados = pre ++ r :: post
                    ∧ ∀ x ∈ pre, es_referencia x = false)
            ∧ (rep.referencia = none →
                ∀ r ∈ rep.resultados_ordenados, es_referencia r = false))
      ∧ (∃ rep, main_script true escenario_mpls = RunResult.ok rep
          ∧ rep.referencia.map (fun r => r.archivo) = some "pe1-mpls.txt"
          ∧ (rep.resultados_ordenados.find?
                (fun r => r.archivo = "pe1-mpls-srv6.txt")).map
              (fun r => r.diff_vs_ref_abs) = some (some 4)
          ∧ (rep.resultados_ordenados.find?
                (fun r => r.archivo = "pe1-mpls-srv6.txt")).map
              (fun r => r.diff_vs_ref_pct) = some (some 40)) := by
  constructor
  · intro carpeta_existe entradas rep h
    obtain ⟨resultados, hc, ha⟩ := main_ok_elim h
    obtain ⟨ms, rest, hs, hmin, hmax, hres, hrefeq, hde, hdep, hcsv⟩ := analizar_eq_some ha
    constructor
    · intro r hr
      rw [hrefeq] at hr
      exact find?_eq_some_split hr
    · intro hnone r hr
      rw [hrefeq] at hnone
      have := List.find?_eq_none.mp hnone r hr
      simpa using this
  · exact ⟨_, rfl, by decide, by decide, by decide⟩

/-- C6. All percentage fields guard their divisor: `diff_vs_min_pct` is
the rounded `diff / min_lineas * 100` when `min_lineas > 0` and `0.0`
when `min_lineas = 0` (in particular it is `0.0` on every minimum
record); `diff_vs_ref_pct` works the same with `ref_lineas`; the
extreme-to-extreme percentage divides by `max_lineas` and is `0.0` when
`max_lineas = 0`.  Divisions only ever happen under a positivity test. -/
theorem porcentajes_protegidos (carpeta_existe : Bool) (entradas : List Entrada)
    (rep : Report) (h : main_script carpeta_existe entradas = RunResult.ok rep) :
    (∀ r ∈ rep.resultados_ordenados,
        (0 < rep.min_lineas →
            r.diff_vs_min_pct
              = some (round2 (((r.lineas_codigo : ℚ) - (rep.min_lineas : ℚ))
                  / (rep.min_lineas : ℚ) * 100)))
          ∧ (rep.min_lineas = 0 → r.diff_vs_min_pct = some 0)
          ∧ (r.lineas_codigo = rep.min_lineas → r.diff_vs_min_pct = some 0))
      ∧ (∀ rl : Nat, rep.referencia.map (fun r => r.lineas_codigo) = some rl →
          ∀ r ∈ rep.resultados_ordenados,
            (0 < rl →
                r.diff_vs_ref_pct
                  = some (round2 (((r.lineas_codigo : ℚ) - (rl : ℚ)) / (rl : ℚ) * 100)))
              ∧ (rl = 0 → r.diff_vs_ref_pct = some 0))
      ∧ (0 < rep.max_lineas →
          rep.diff_extremos_pct
            = ((rep.max_lineas : ℚ) - (rep.min_lineas : ℚ)) / (rep.max_lineas : ℚ) * 100)
      ∧ (rep.max_lineas = 0 → rep.diff_extremos_pct = 0) := by
  obtain ⟨resultados, hc, ha⟩ := main_ok_elim h
  obtain ⟨ms, rest, hs, hmin, hmax, hres, hrefeq, hde, hdep, hcsv⟩ := analizar_eq_some ha
  refine ⟨?_, ?_, ?_, ?_⟩
  · intro r hr
    rw [hres] at hr
    obtain ⟨r0, hr0, rfl⟩ := List.mem_map.mp hr
    refine ⟨?_, ?_, ?_⟩
    · intro hpos
      rw [hmin] at hpos
      rw [rellenar_diff_min_pct, rellenar_lineas, hmin, if_pos hpos, pct_eq_div]
      have hcast : (((r0.lineas_codigo : Int) - (ms.lineas_codigo : Int) : Int) : ℚ)
          = (r0.lineas_codigo : ℚ) - (ms.lineas_codigo : ℚ) := by
        push_cast
        ring
      rw [hcast]
    · intro h0
      rw [hmin] at h0
      rw [rellenar_diff_min_pct, h0]
      simp [round2_zero]
    · intro heq
      rw [rellenar_lineas, hmin] at heq
      have hd : (r0.lineas_codigo : Int) - (ms.lineas_codigo : Int) = 0 := by omega
      rw [rellenar_diff_min_pct, hd]
      have hcond : (if 0 < ms.lineas_codigo then pct 0 ms.lineas_codigo else 0) = 0 := by
        split
        · exact pct_zero _
        · rfl
      rw [hcond, round2_zero]
  · intro rl hrl
    have hrefmap : rep.referencia.map (fun r => r.lineas_codigo)
        = (encontrar_referencia (ms :: rest)).map (fun r => r.lineas_codigo) := by
      rw [hrefeq, hres, encontrar_referencia_map_rellenar, Option.map_map]
      congr 1
      funext r
      simp only [Function.comp]
      rw [rellenar_lineas]
    rw [hrefmap] at hrl
    cases hfind : encontrar_referencia (ms :: rest) with
    | none => rw [hfind] at hrl; simp at hrl
    | some r0 =>
      rw [hfind] at hrl
      have hr0l : r0.lineas_codigo = rl := by
        simpa using hrl
      intro r hr
      rw [hres, hfind,
        show Option.map (fun r : Registro => r.lineas_codigo) (some r0)
          = some r0.lineas_codigo from rfl, hr0l] at hr
      obtain ⟨r1, hr1, rfl⟩ := List.mem_map.mp hr
      refine ⟨?_, ?_⟩
      · intro hpos
        rw [(rellenar_ref_some _ _ _).2, rellenar_lineas, if_pos hpos, pct_eq_div]
        have hcast : (((r1.lineas_codigo : Int) - (rl : Int) : Int) : ℚ)
            = (r1.lineas_codigo : ℚ) - (rl : ℚ) := by
          push_cast
          ring
        rw [hcast]
      · intro h0
        rw [(rellenar_ref_some _ _ _).2, h0]
        simp [round2_zero]
  · intro hpos
    rw [hdep, if_pos hpos, pct_eq_div]
    have hcast : (((rep.max_lineas : Int) - (rep.min_lineas : Int) : Int) : ℚ)
        = (rep.max_lineas : ℚ) - (rep.min_lineas : ℚ) := by
      push_cast
      ring
    rw [hcast]
  · intro h0
    rw [hdep, h0]
    simp

/-- Witness for C6 at scenario 2. -/
theorem porcentajes_protegidos_testigo :
    ∃ rep, main_script true escenario_mpls = RunResult.ok rep
      ∧ ((∀ r ∈ rep.resultados_ordenados,
            (0 < rep.min_lineas →
                r.diff_vs_min_pct
                  = some (round2 (((r.lineas_codigo : ℚ) - (rep.min_lineas : ℚ))
                      / (rep.min_lineas : ℚ) * 100)))
              ∧ (rep.min_lineas = 0 → r.diff_vs_min_pct = some 0)
              ∧ (r.lineas_codigo = rep.min_lineas → r.diff_vs_min_pct = some 0))
          ∧ (∀ rl : Nat, rep.referencia.map (fun r => r.lineas_codigo) = some rl →
              ∀ r ∈ rep.resultados_ordenados,
                (0 < rl →
                    r.diff_vs_ref_pct
                      = some (round2 (((r.lineas_codigo : ℚ) - (rl : ℚ)) / (rl : ℚ) * 100)))
                  ∧ (rl = 0 → r.diff_vs_ref_pct = some 0))
          ∧ (0 < rep.max_lineas →
              rep.diff_extremos_pct
                = ((rep.max_lineas : ℚ) - (rep.min_lineas : ℚ)) / (rep.max_lineas : ℚ) * 100)
          ∧ (rep.max_lineas = 0 → rep.diff_extremos_pct = 0)) :=
  ⟨_, rfl, porcentajes_protegidos true escenario_mpls _ rfl⟩

lemma sortLe_nombre_strict (l : List Entrada) (hnd : (l.map Prod.fst).Nodup) :
    (sortLe nombreLe l).Pairwise (fun a b => nombreLe a b = true ∧ a.1 ≠ b.1) := by
  have h1 := sortLe_pairwise nombreLe nombreLe_trans nombreLe_total l
  have h2 : ((sortLe nombreLe l).map Prod.fst).Nodup := by
    have hpm : ((sortLe nombreLe l).map Prod.fst).Perm (l.map Prod.fst) :=
      (sortLe_perm nombreLe l).map Prod.fst
    exact hpm.symm.nodup hnd
  exact h1.and (List.pairwise_map.mp h2)

/-- The enumeration canonicalises itself: listing order does not change
the sorted file list when names are distinct. -/
lemma obtener_archivos_config_perm {entradas entradas' : List Entrada}
    (hperm : entradas.Perm entradas')
    (hnombres : (entradas.map Prod.fst).Nodup) :
    obtener_archivos_config entradas = obtener_archivos_config entradas' := by
  have hfil := hperm.filter
    (fun e : Entrada => (EXTENSIONS.map String.toList).contains (pyExtension e.1.toList))
  have hnd1 : ((entradas.filter
      (fun e : Entrada =>
        (EXTENSIONS.map String.toList).contains (pyExtension e.1.toList))).map Prod.fst).Nodup :=
    List.Nodup.sublist ((List.filter_sublist _).map Prod.fst) hnombres
  have hnd2 : ((entradas'.filter
      (fun e : Entrada =>
        (EXTENSIONS.map String.toList).contains (pyExtension e.1.toList))).map Prod.fst).Nodup :=
    (hfil.map Prod.fst).nodup hnd1
  unfold obtener_archivos_config
  refine eq_of_perm_of_pairwise_asymm
    (R := fun a b : Entrada => nombreLe a b = true ∧ a.1 ≠ b.1) ?_ _ _ ?_ ?_ ?_
  · rintro a b ⟨h1, hne⟩ ⟨h2, _⟩
    exact hne (string_eq_of_toList_eq (leListChar_antisymm _ _ h1 h2))
  · exact ((sortLe_perm _ _).trans hfil).trans (sortLe_perm _ _).symm
  · exact sortLe_nombre_strict _ hnd1
  · exact sortLe_nombre_strict _ hnd2

/-- C5. For a fixed file set with distinct names, the run — in particular
the selected reference — does not depend on the order in which the
directory listing enumerates the files. -/
theorem referencia_independiente_del_orden (carpeta_existe : Bool)
    (entradas entradas' : List Entrada)
    (hperm : entradas.Perm entradas')
    (hnombres : (entradas.map Prod.fst).Nodup) :
    main_script carpeta_existe entradas = main_script carpeta_existe entradas'
      ∧ ∀ rep rep', main_script carpeta_existe entradas = RunResult.ok rep →
          main_script carpeta_existe entradas' = RunResult.ok rep' →
          rep.referencia = rep'.referencia := by
  have hobt := obtener_archivos_config_perm hperm hnombres
  have hmain : main_script carpeta_existe entradas = main_script carpeta_existe entradas' := by
    cases carpeta_existe with
    | false => rfl
    | true => simp only [main_script, hobt]
  refine ⟨hmain, ?_⟩
  intro rep rep' h1 h2
  rw [hmain, h2] at h1
  injection h1 with h1
  rw [h1]

/-- Two listing orders of the same two files. -/
def escenario_permutado : List Entrada :=
  [("pe9-mpls.txt", some ["c1", "c2"]), ("pe8-srv6.txt", some ["c1"])]

/-- The same files, enumerated the other way round. -/
def escenario_permutado_inverso : List Entrada :=
  [("pe8-srv6.txt", some ["c1"]), ("pe9-mpls.txt", some ["c1", "c2"])]

/-- Witness for C5 on a concrete two-file permutation. -/
theorem referencia_independiente_del_orden_testigo :
    escenario_permutado.Perm escenario_permutado_inverso
      ∧ (escenario_permutado.map Prod.fst).Nodup
      ∧ (main_script true escenario_permutado = main_script true escenario_permutado_inverso
          ∧ ∀ rep rep', main_script true escenario_permutado = RunResult.ok rep →
              main_script true escenario_permutado_inverso = RunResult.ok rep' →
              rep.referencia = rep'.referencia) :=
  ⟨by decide, by decide,
    referencia_independiente_del_orden true escenario_permutado escenario_permutado_inverso
      (by decide) (by decide)⟩
